import Mathlib

/-!
Shallow embedding of the `simple-tpa` Endstone plugin
(`src/endstone_tpa_plugin/src/endstone_tpa_plugin/tpa_plugin.py`).

Players are identified by their names (`String`), matching the code's use of
`player.name` both as the registry key and in the disconnect cleanup.
The registry `self._requests : Dict[str, Tuple[CommandSender, object]]` is
modelled as an insertion-ordered association list from target name to a
`PendingRequest` (requester name plus a timer identifier).  Scheduler tasks
(`self.server.scheduler.run_task`) are modelled by consecutive `Nat`
identifiers allocated from a counter; the state additionally records, for each
scheduled timer, the `(target, sender)` pair captured by the `expire` closure,
the log of `task.cancel()` calls, and the set of timers that have fired.
Messages (`send_message`) and teleports (`requester.teleport(sender)`) are
returned as explicit effect lists.
-/

namespace Tpa

/-- One registry value: the tuple `(sender, task)` stored in `self._requests`. -/
structure PendingRequest where
  requester : String
  task : Nat
deriving DecidableEq

/-- The plugin state: the `_requests` dict plus scheduler bookkeeping. -/
structure TpaState where
  /-- The dict `self._requests`, in insertion order. -/
  requests : List (String × PendingRequest)
  /-- Next fresh timer identifier. -/
  nextTimer : Nat
  /-- Every timer ever scheduled, with the `(target.name, sender)` pair the
  `expire` closure captured at scheduling time. -/
  timers : List (Nat × String × String)
  /-- Log of `task.cancel()` calls, most recent first. -/
  canceled : List Nat
  /-- Timers whose callback has run, most recent first. -/
  fired : List Nat
deriving DecidableEq

/-- The state right after `on_enable`: empty dict, no timers. -/
def initState : TpaState := ⟨[], 0, [], [], []⟩

/-- Lookup `target.name in self._requests` / `self._requests[target.name]`. -/
def findReq : List (String × PendingRequest) → String → Option PendingRequest
  | [], _ => none
  | (k, pr) :: rest, t => if k = t then some pr else findReq rest t

/-- Removal `self._requests.pop(t)` / `del self._requests[t]` of the entry keyed `t`. -/
def removeReq : List (String × PendingRequest) → String → List (String × PendingRequest)
  | [], _ => []
  | (k, pr) :: rest, t => if k = t then rest else (k, pr) :: removeReq rest t

/-- Resolution `self.server.get_player(name)` of a name to a connected player. -/
def getPlayer (conn : List String) (name : String) : Option String :=
  if name ∈ conn then some name else none

/-- Which branch of a command handler ran (spec-level outcome labels). -/
inductive Outcome where
  | usage
  | playerNotFound
  | selfRequest
  | duplicatePending
  | sent
  | noPendingRequest
  | accepted
  | denied
deriving DecidableEq

/-- Result of one command handler call: the new state, the `send_message`
calls in order `(recipient, text)`, the `teleport` calls in order
`(who, destination player)`, the branch taken, and the handler's return. -/
structure CmdResult where
  state : TpaState
  messages : List (String × String)
  teleports : List (String × String)
  outcome : Outcome
  handled : Bool
deriving DecidableEq

/-- Delay passed to `run_task` in `_handle_tpa`: `delay=20 * 60` ticks. -/
def tpaDelay : Nat := 20 * 60

/-- Handler `_handle_tpa(sender, args)`.  `conn` is the set of connected player
names backing `self.server.get_player`. -/
def handleTpa (conn : List String) (sender : String) (args : List String)
    (s : TpaState) : CmdResult :=
  match args with
  | [arg] =>
    match getPlayer conn arg with
    | none => ⟨s, [(sender, "Player not found.")], [], .playerNotFound, true⟩
    | some target =>
      if target = sender then
        ⟨s, [(sender, "You cannot send a request to yourself.")], [],
          .selfRequest, true⟩
      else
        match findReq s.requests target with
        | some pr =>
          if pr.requester = sender then
            ⟨s, [(sender, "You already have a pending request to this player.")],
              [], .duplicatePending, true⟩
          else
            ⟨s, [(sender, "This player already has a pending request.")],
              [], .duplicatePending, true⟩
        | none =>
          ⟨{ s with
              requests := s.requests ++ [(target, ⟨sender, s.nextTimer⟩)]
              nextTimer := s.nextTimer + 1
              timers := s.timers ++ [(s.nextTimer, target, sender)] },
            [(sender, "Teleport request sent to " ++ target ++ "."),
             (target, sender ++
               " has requested to teleport to you. Use /tpaccept to accept or /tpdeny to deny.")],
            [], .sent, true⟩
  | _ => ⟨s, [(sender, "Usage: /tpa <player>")], [], .usage, true⟩

/-- The body of the `expire` closure scheduled by `_handle_tpa`: guard
`self._requests.get(target.name, (None, None))[0] == sender`, then delete the
entry and notify both parties. -/
def expire (target sender : String) (s : TpaState) :
    TpaState × List (String × String) :=
  match findReq s.requests target with
  | some pr =>
    if pr.requester = sender then
      ({ s with requests := removeReq s.requests target },
       [(sender, "Your teleport request has expired."),
        (target, "Teleport request expired.")])
    else (s, [])
  | none => (s, [])

/-- The scheduler running timer `tid` (scheduled with captured `(target,
sender)`): the callback body `expire` runs and the timer is marked fired. -/
def fireTimer (tid : Nat) (target sender : String) (s : TpaState) :
    TpaState × List (String × String) :=
  let r := expire target sender s
  ({ r.1 with fired := tid :: r.1.fired }, r.2)

/-- Handler `_handle_tpaccept(sender)`. -/
def handleTpaccept (sender : String) (s : TpaState) : CmdResult :=
  match findReq s.requests sender with
  | none =>
    ⟨s, [(sender, "You have no pending request.")], [], .noPendingRequest, true⟩
  | some pr =>
    ⟨{ s with
        requests := removeReq s.requests sender
        canceled := pr.task :: s.canceled },
      [(pr.requester, sender ++ " accepted your teleport request."),
       (sender, "You accepted " ++ pr.requester ++ "\x27s teleport request.")],
      [(pr.requester, sender)], .accepted, true⟩

/-- Handler `_handle_tpdeny(sender)`. -/
def handleTpdeny (sender : String) (s : TpaState) : CmdResult :=
  match findReq s.requests sender with
  | none =>
    ⟨s, [(sender, "You have no pending request.")], [], .noPendingRequest, true⟩
  | some pr =>
    ⟨{ s with
        requests := removeReq s.requests sender
        canceled := pr.task :: s.canceled },
      [(pr.requester, sender ++ " denied your teleport request."),
       (sender, "You denied " ++ pr.requester ++ "\x27s teleport request.")],
      [], .denied, true⟩

/-- The second loop of `on_player_quit`: pop each target in `to_cancel`,
cancel its timer, and message the target if still connected. -/
def quitOutbound (conn : List String) (p : String) :
    List String → TpaState → TpaState × List (String × String)
  | [], s => (s, [])
  | t :: ts, s =>
    match findReq s.requests t with
    | some pr =>
      let s' : TpaState :=
        { s with
            requests := removeReq s.requests t
            canceled := pr.task :: s.canceled }
      let rest := quitOutbound conn p ts s'
      match getPlayer conn t with
      | some pl =>
        (rest.1, (pl, p ++ " left the game. Teleport request cancelled.") :: rest.2)
      | none => rest
    | none => quitOutbound conn p ts s

/-- Hook `on_player_quit(event)` for the player named `p`.  `conn` backs the
`self.server.get_player(target_name)` lookups in the second pass (the
departing player is no longer in it). -/
def onPlayerQuit (conn : List String) (p : String) (s : TpaState) :
    TpaState × List (String × String) :=
  let first :=
    match findReq s.requests p with
    | some pr =>
      (({ s with
            requests := removeReq s.requests p
            canceled := pr.task :: s.canceled } : TpaState),
       [(pr.requester, p ++ " left the game. Teleport request cancelled.")])
    | none => (s, ([] : List (String × String)))
  let toCancel :=
    (first.1.requests.filter (fun e => e.2.requester == p)).map (fun e => e.1)
  let second := quitOutbound conn p toCancel first.1
  (second.1, first.2 ++ second.2)

/-- Shutdown `on_disable`: cancel every stored task in dict order, clear the dict.
No `send_message` call occurs in the source, hence the empty message list. -/
def onDisable (s : TpaState) : TpaState × List (String × String) :=
  ({ s with
      canceled := (s.requests.map (fun e => e.2.task)) ++ s.canceled
      requests := [] }, [])

/-- One dispatch by the host: a command, a quit event, a timer firing (only a
scheduled, uncanceled, unfired timer can fire), or plugin shutdown.  The
connected-player list `conn` may differ from step to step. -/
inductive Step : TpaState → TpaState → Prop where
  | tpa (conn : List String) (sender : String) (args : List String) (s : TpaState) :
      Step s (handleTpa conn sender args s).state
  | tpaccept (sender : String) (s : TpaState) :
      Step s (handleTpaccept sender s).state
  | tpdeny (sender : String) (s : TpaState) :
      Step s (handleTpdeny sender s).state
  | quit (conn : List String) (p : String) (s : TpaState) :
      Step s (onPlayerQuit conn p s).1
  | fire (tid : Nat) (target sender : String) (s : TpaState)
      (hmem : (tid, target, sender) ∈ s.timers)
      (hnc : tid ∉ s.canceled) (hnf : tid ∉ s.fired) :
      Step s (fireTimer tid target sender s).1
  | disable (s : TpaState) :
      Step s (onDisable s).1

/-- States reachable from the freshly-enabled plugin. -/
def Reachable (s : TpaState) : Prop :=
  Relation.ReflTransGen Step initState s


/-- Concrete state after a successful `/tpa B` by `A` on a fresh plugin. -/
def sentState : TpaState := (handleTpa ["A", "B"] "A" ["B"] initState).state

/-- C1: `_handle_tpa` validates in order with short-circuiting: unresolvable
name gives `playerNotFound`; a resolved target equal to the sender gives
`selfRequest`; an existing entry keyed by the target gives `duplicatePending`
with the state untouched; otherwise the entry `(sender, fresh timer)` is
inserted under the target's name, the timer is scheduled, both players are
messaged, and the outcome is `sent`. -/
theorem tpa_validation_order (conn : List String) (sender arg : String)
    (s : TpaState) :
    (getPlayer conn arg = none →
      handleTpa conn sender [arg] s =
        ⟨s, [(sender, "Player not found.")], [], .playerNotFound, true⟩) ∧
    (∀ target, getPlayer conn arg = some target → target = sender →
      handleTpa conn sender [arg] s =
        ⟨s, [(sender, "You cannot send a request to yourself.")], [],
          .selfRequest, true⟩) ∧
    (∀ target pr, getPlayer conn arg = some target → target ≠ sender →
      findReq s.requests target = some pr →
      (handleTpa conn sender [arg] s).outcome = .duplicatePending ∧
      (handleTpa conn sender [arg] s).state = s) ∧
    (∀ target, getPlayer conn arg = some target → target ≠ sender →
      findReq s.requests target = none →
      handleTpa conn sender [arg] s =
        ⟨{ s with
            requests := s.requests ++ [(target, ⟨sender, s.nextTimer⟩)]
            nextTimer := s.nextTimer + 1
            timers := s.timers ++ [(s.nextTimer, target, sender)] },
          [(sender, "Teleport request sent to " ++ target ++ "."),
           (target, sender ++
             " has requested to teleport to you. Use /tpaccept to accept or /tpdeny to deny.")],
          [], .sent, true⟩) := by
  refine ⟨?_, ?_, ?_, ?_⟩
  · intro h; simp [handleTpa, h]
  · intro target h he; simp [handleTpa, h, he]
  · intro target pr h hne hfind
    simp only [handleTpa, h, hfind, hne, if_false]
    split <;> exact ⟨rfl, rfl⟩
  · intro target h hne hfind; simp [handleTpa, h, hne, hfind]

/-- C1 witness: a fresh `/tpa B` by `A` with both connected takes the
success branch. -/
theorem tpa_validation_order_witness :
    handleTpa ["A", "B"] "A" ["B"] initState =
      ⟨⟨[("B", ⟨"A", 0⟩)], 1, [(0, "B", "A")], [], []⟩,
        [("A", "Teleport request sent to B."),
         ("B", "A has requested to teleport to you. Use /tpaccept to accept or /tpdeny to deny.")],
        [], .sent, true⟩ :=
  ((tpa_validation_order ["A", "B"] "A" "B" initState).2.2.2 "B"
    (by decide) (by decide) rfl).trans (by decide)


/-- C2: the expiry delay is 1200 ticks, and the `expire` callback re-checks
that the entry for its target still exists and still stores the same
requester: if both hold it removes exactly that entry and sends the two
expiry messages once each, otherwise it changes nothing and sends nothing. -/
theorem expire_guard_spec (target sender : String) (s : TpaState) :
    tpaDelay = 1200 ∧
    (∀ pr, findReq s.requests target = some pr → pr.requester = sender →
      expire target sender s =
        ({ s with requests := removeReq s.requests target },
         [(sender, "Your teleport request has expired."),
          (target, "Teleport request expired.")])) ∧
    (findReq s.requests target = none → expire target sender s = (s, [])) ∧
    (∀ pr, findReq s.requests target = some pr → pr.requester ≠ sender →
      expire target sender s = (s, [])) := by
  refine ⟨rfl, ?_, ?_, ?_⟩
  · intro pr hfind hreq; simp [expire, hfind, hreq]
  · intro h; simp [expire, h]
  · intro pr hfind hreq; simp [expire, hfind, hreq]

/-- C2 witness: firing against the live entry removes it and notifies both. -/
theorem expire_guard_spec_witness :
    expire "B" "A" sentState =
      (⟨[], 1, [(0, "B", "A")], [], []⟩,
       [("A", "Your teleport request has expired."),
        ("B", "Teleport request expired.")]) :=
  by
  have h := (expire_guard_spec "B" "A" sentState).2.1 (PendingRequest.mk "A" 0)
    (by decide) rfl
  exact h.trans (by decide)

/-- C4: `_handle_tpaccept` with no entry for the sender answers
"You have no pending request." and changes nothing; with an entry it removes
it, cancels its timer, notifies requester and target, and performs exactly
one teleport of the requester to the target. -/
theorem tpaccept_spec (sender : String) (s : TpaState) :
    (findReq s.requests sender = none →
      handleTpaccept sender s =
        ⟨s, [(sender, "You have no pending request.")], [],
          .noPendingRequest, true⟩) ∧
    (∀ pr, findReq s.requests sender = some pr →
      handleTpaccept sender s =
        ⟨{ s with
            requests := removeReq s.requests sender
            canceled := pr.task :: s.canceled },
          [(pr.requester, sender ++ " accepted your teleport request."),
           (sender, "You accepted " ++ pr.requester ++ "\x27s teleport request.")],
          [(pr.requester, sender)], .accepted, true⟩) := by
  constructor
  · intro h; simp [handleTpaccept, h]
  · intro pr h; simp [handleTpaccept, h]

/-- C4 witness: `B` accepting the pending request from `A` removes the entry,
cancels timer 0, sends both messages, and teleports `A` to `B` once. -/
theorem tpaccept_spec_witness :
    handleTpaccept "B" sentState =
      ⟨⟨[], 1, [(0, "B", "A")], [0], []⟩,
        [("A", "B accepted your teleport request."),
         ("B", "You accepted A\x27s teleport request.")],
        [("A", "B")], .accepted, true⟩ :=
  by
  have h := (tpaccept_spec "B" sentState).2 (PendingRequest.mk "A" 0) (by decide)
  exact h.trans (by decide)

/-- C7: every failed `/tpa` validation leaves the whole state (map, timers,
cancellations) unchanged, and the duplicate case tells the sender the
"already have" variant when the stored requester is the sender and the
"already has" variant otherwise. -/
theorem tpa_failure_no_mutation (conn : List String) (sender arg : String)
    (s : TpaState) :
    (getPlayer conn arg = none → (handleTpa conn sender [arg] s).state = s) ∧
    (∀ target, getPlayer conn arg = some target → target = sender →
      (handleTpa conn sender [arg] s).state = s) ∧
    (∀ target pr, getPlayer conn arg = some target → target ≠ sender →
      findReq s.requests target = some pr →
      handleTpa conn sender [arg] s =
        ⟨s, [(sender,
            if pr.requester = sender then
              "You already have a pending request to this player."
            else "This player already has a pending request.")], [],
          .duplicatePending, true⟩) := by
  refine ⟨?_, ?_, ?_⟩
  · intro h; simp [handleTpa, h]
  · intro target h he; simp [handleTpa, h, he]
  · intro target pr h hne hfind
    by_cases hr : pr.requester = sender
    · simp [handleTpa, h, hne, hfind, hr]
    · simp [handleTpa, h, hne, hfind, hr]

/-- C7 witness: a second `/tpa B` by `A` is a duplicate, gets the
"already have" message, and leaves the state exactly as it was. -/
theorem tpa_failure_no_mutation_witness :
    handleTpa ["A", "B"] "A" ["B"] sentState =
      ⟨sentState,
        [("A", "You already have a pending request to this player.")], [],
        .duplicatePending, true⟩ :=
  by
  have h := (tpa_failure_no_mutation ["A", "B"] "A" "B" sentState).2.2 "B"
    (PendingRequest.mk "A" 0) (by decide) (by decide) (by decide)
  exact h.trans (by decide)

/-- C8: `_handle_tpdeny` produces exactly the same state transformation as
`_handle_tpaccept` (same lookup, removal, and cancellation), never teleports,
answers `noPendingRequest` with no side effects when no entry is keyed by the
sender, and otherwise notifies both parties with the denial messages. -/
theorem tpdeny_matches_accept (sender : String) (s : TpaState) :
    (handleTpdeny sender s).state = (handleTpaccept sender s).state ∧
    (handleTpdeny sender s).teleports = [] ∧
    (handleTpdeny sender s).handled = true ∧
    (findReq s.requests sender = none →
      handleTpdeny sender s =
        ⟨s, [(sender, "You have no pending request.")], [],
          .noPendingRequest, true⟩) ∧
    (∀ pr, findReq s.requests sender = some pr →
      (handleTpdeny sender s).messages =
        [(pr.requester, sender ++ " denied your teleport request."),
         (sender, "You denied " ++ pr.requester ++ "\x27s teleport request.")] ∧
      (handleTpdeny sender s).outcome = .denied) := by
  refine ⟨?_, ?_, ?_, ?_, ?_⟩
  · cases h : findReq s.requests sender <;>
      simp [handleTpdeny, handleTpaccept, h]
  · cases h : findReq s.requests sender <;> simp [handleTpdeny, h]
  · cases h : findReq s.requests sender <;> simp [handleTpdeny, h]
  · intro h; simp [handleTpdeny, h]
  · intro pr h; simp [handleTpdeny, h]

/-- C8 witness: `B` denying the pending request from `A` sends the denial
messages (and, by the theorem, performs the accept-identical state change
with no teleport). -/
theorem tpdeny_matches_accept_witness :
    (handleTpdeny "B" sentState).messages =
      [("A", "B denied your teleport request."),
       ("B", "You denied A\x27s teleport request.")] :=
  by
  have h := ((tpdeny_matches_accept "B" sentState).2.2.2.2 (PendingRequest.mk "A" 0)
    (by decide)).1
  exact h.trans (by decide)

/-- C9: `on_disable` cancels the timer of every outstanding entry, clears the
map completely, and sends no message. -/
theorem onDisable_spec (s : TpaState) :
    (onDisable s).1.requests = [] ∧
    (∀ e ∈ s.requests, e.2.task ∈ (onDisable s).1.canceled) ∧
    (onDisable s).2 = [] := by
  refine ⟨rfl, ?_, rfl⟩
  intro e he
  simp only [onDisable, List.mem_append, List.mem_map]
  exact Or.inl ⟨e, he, rfl⟩

/-- C9 witness: shutting down with one pending entry cancels its timer. -/
theorem onDisable_spec_witness :
    (0 : Nat) ∈ (onDisable sentState).1.canceled :=
  (onDisable_spec sentState).2.1 ("B", PendingRequest.mk "A" 0) (by decide)

/-- C10: `/tpa` invoked with a number of arguments different from one sends
the usage message, leaves the state untouched (no entry, no timer), and
reports the command handled. -/
theorem tpa_usage (conn : List String) (sender : String) (args : List String)
    (s : TpaState) (h : args.length ≠ 1) :
    handleTpa conn sender args s =
      ⟨s, [(sender, "Usage: /tpa <player>")], [], .usage, true⟩ := by
  match args with
  | [] => rfl
  | [a] => exact absurd rfl h
  | a :: b :: rest => rfl

/-- C10 witness: `/tpa` with no arguments on the fresh state. -/
theorem tpa_usage_witness :
    handleTpa ["A", "B"] "A" [] initState =
      ⟨initState, [("A", "Usage: /tpa <player>")], [], .usage, true⟩ :=
  tpa_usage ["A", "B"] "A" [] initState (by decide)


/-- Keys of the registry, in order. -/
def reqKeys (l : List (String × PendingRequest)) : List String :=
  l.map (fun e => e.1)

theorem findReq_mem {l : List (String × PendingRequest)} {t : String}
    {pr : PendingRequest} (h : findReq l t = some pr) : (t, pr) ∈ l := by
  induction l with
  | nil => simp [findReq] at h
  | cons e rest ih =>
    obtain ⟨k, pr'⟩ := e
    by_cases hk : k = t
    · subst hk
      simp [findReq] at h
      simp [h]
    · simp [findReq, hk] at h
      exact List.mem_cons_of_mem _ (ih h)

theorem mem_findReq {l : List (String × PendingRequest)}
    (hk : (reqKeys l).Nodup) {t : String} {pr : PendingRequest}
    (h : (t, pr) ∈ l) : findReq l t = some pr := by
  induction l with
  | nil => simp at h
  | cons e rest ih =>
    obtain ⟨k, pr'⟩ := e
    simp only [reqKeys, List.map_cons, List.nodup_cons] at hk
    rcases List.mem_cons.mp h with he | hm
    · obtain ⟨h1, h2⟩ := Prod.mk.injEq .. ▸ he
      simp_all [findReq]
    · have hne : k ≠ t := by
        intro hkt
        subst hkt
        exact hk.1 (List.mem_map.mpr ⟨(k, pr), hm, rfl⟩)
      simp [findReq, hne]
      exact ih hk.2 hm

theorem findReq_eq_none_iff {l : List (String × PendingRequest)} {t : String} :
    findReq l t = none ↔ t ∉ reqKeys l := by
  induction l with
  | nil => simp [findReq, reqKeys]
  | cons e rest ih =>
    obtain ⟨k, pr⟩ := e
    by_cases hk : k = t
    · subst hk; simp [findReq, reqKeys]
    · simp [findReq, hk, reqKeys, Ne.symm hk]
      simpa [reqKeys] using ih

theorem removeReq_eq_filter {l : List (String × PendingRequest)} {t : String}
    (hk : (reqKeys l).Nodup) :
    removeReq l t = l.filter (fun e => !(e.1 == t)) := by
  induction l with
  | nil => rfl
  | cons e rest ih =>
    obtain ⟨k, pr⟩ := e
    simp only [reqKeys, List.map_cons, List.nodup_cons] at hk
    by_cases hkt : k = t
    · subst hkt
      simp only [removeReq, if_pos rfl, List.filter_cons]
      simp only [beq_self_eq_true, Bool.not_true, if_neg]
      rw [List.filter_eq_self.mpr]
      · simp
      · intro e he
        simp only [Bool.not_eq_true']
        exact beq_eq_false_iff_ne.mpr
          (fun hek => absurd (List.mem_map.mpr ⟨e, he, hek⟩) hk.1)
    · simp only [removeReq, if_neg hkt, List.filter_cons]
      have : (k == t) = false := beq_eq_false_iff_ne.mpr hkt
      simp [this, ih hk.2]

theorem mem_removeReq {l : List (String × PendingRequest)} {t : String}
    (hk : (reqKeys l).Nodup) {e : String × PendingRequest} :
    e ∈ removeReq l t ↔ e ∈ l ∧ e.1 ≠ t := by
  rw [removeReq_eq_filter hk]
  simp [List.mem_filter]

theorem reqKeys_removeReq {l : List (String × PendingRequest)} {t : String}
    (hk : (reqKeys l).Nodup) : (reqKeys (removeReq l t)).Nodup := by
  rw [removeReq_eq_filter hk]
  exact ((List.filter_sublist l).map _).nodup hk

theorem findReq_removeReq_self {l : List (String × PendingRequest)} {t : String}
    (hk : (reqKeys l).Nodup) : findReq (removeReq l t) t = none := by
  rw [findReq_eq_none_iff]
  intro hmem
  obtain ⟨e, he, hek⟩ := List.mem_map.mp hmem
  exact ((mem_removeReq hk).mp he).2 hek

theorem findReq_removeReq_ne {l : List (String × PendingRequest)}
    {t t' : String} (h : t' ≠ t) :
    findReq (removeReq l t) t' = findReq l t' := by
  induction l with
  | nil => rfl
  | cons e rest ih =>
    obtain ⟨k, pr⟩ := e
    by_cases hkt : k = t
    · subst hkt
      simp [removeReq, findReq, Ne.symm h]
    · by_cases hkt' : k = t'
      · subst hkt'
        simp [removeReq, findReq, hkt]
      · simp [removeReq, findReq, hkt, hkt', ih]


/-- Well-formedness maintained by every entry point: keys are unique, no
self-request is stored, timer identifiers are allocated below the counter and
uniquely, the cancel log has no duplicates and is disjoint from the fired
timers, every live entry's timer is scheduled and still pending, and every
scheduled timer that is neither canceled nor fired still backs its entry. -/
structure Inv (s : TpaState) : Prop where
  keysNodup : (reqKeys s.requests).Nodup
  noSelf : ∀ e ∈ s.requests, e.2.requester ≠ e.1
  tasksLt : ∀ e ∈ s.requests, e.2.task < s.nextTimer
  timersLt : ∀ tr ∈ s.timers, tr.1 < s.nextTimer
  timersNodup : (s.timers.map (fun tr => tr.1)).Nodup
  canceledLt : ∀ tid ∈ s.canceled, tid < s.nextTimer
  firedLt : ∀ tid ∈ s.fired, tid < s.nextTimer
  canceledNodup : s.canceled.Nodup
  firedNodup : s.fired.Nodup
  disjointCF : ∀ tid ∈ s.canceled, tid ∉ s.fired
  liveScheduled : ∀ e ∈ s.requests, (e.2.task, e.1, e.2.requester) ∈ s.timers
  liveNotCanceled : ∀ e ∈ s.requests, e.2.task ∉ s.canceled
  liveNotFired : ∀ e ∈ s.requests, e.2.task ∉ s.fired
  pendingLive : ∀ tr ∈ s.timers, tr.1 ∉ s.canceled → tr.1 ∉ s.fired →
    (tr.2.1, PendingRequest.mk tr.2.2 tr.1) ∈ s.requests

theorem Inv.taskInjOn {s : TpaState} (hs : Inv s) :
    ∀ e1 ∈ s.requests, ∀ e2 ∈ s.requests, e1.2.task = e2.2.task → e1 = e2 := by
  rintro ⟨k1, r1, tk1⟩ h1 ⟨k2, r2, tk2⟩ h2 heq
  have t1 := hs.liveScheduled _ h1
  have t2 := hs.liveScheduled _ h2
  have htr := List.inj_on_of_nodup_map hs.timersNodup t1 t2 (by simpa using heq)
  simp only [Prod.mk.injEq] at htr
  obtain ⟨h3, h4, h5⟩ := htr
  simp [h3, h4, h5]

theorem Inv.tasksNodup {s : TpaState} (hs : Inv s) :
    (s.requests.map (fun e => e.2.task)).Nodup :=
  (hs.keysNodup.of_map).map_on
    (fun x hx y hy h => hs.taskInjOn x hx y hy h)

/-- The entry found under a key is uniquely determined when keys are unique. -/
theorem findReq_unique {l : List (String × PendingRequest)}
    (hk : (reqKeys l).Nodup) {t : String} {pr pr' : PendingRequest}
    (h : findReq l t = some pr) (h' : (t, pr') ∈ l) : pr' = pr := by
  have h2 := mem_findReq hk h'
  rw [h2] at h
  exact Option.some.inj h

/-- Popping an entry and canceling its timer preserves the invariant; this is
the common shape of `_handle_tpaccept`, `_handle_tpdeny`, and both passes of
`on_player_quit`. -/
theorem Inv.popCancel {s : TpaState} (hs : Inv s) {t : String}
    {pr : PendingRequest} (h : findReq s.requests t = some pr) :
    Inv { s with
            requests := removeReq s.requests t
            canceled := pr.task :: s.canceled } := by
  have hpr : (t, pr) ∈ s.requests := findReq_mem h
  refine ⟨?_, ?_, ?_, ?_, ?_, ?_, ?_, ?_, ?_, ?_, ?_, ?_, ?_, ?_⟩
  · exact reqKeys_removeReq hs.keysNodup
  · intro e he
    exact hs.noSelf e ((mem_removeReq hs.keysNodup).mp he).1
  · intro e he
    exact hs.tasksLt e ((mem_removeReq hs.keysNodup).mp he).1
  · exact hs.timersLt
  · exact hs.timersNodup
  · intro tid htid
    rcases List.mem_cons.mp htid with rfl | hmem
    · exact hs.tasksLt _ hpr
    · exact hs.canceledLt tid hmem
  · exact hs.firedLt
  · exact List.nodup_cons.mpr ⟨hs.liveNotCanceled _ hpr, hs.canceledNodup⟩
  · exact hs.firedNodup
  · intro tid htid
    rcases List.mem_cons.mp htid with rfl | hmem
    · exact hs.liveNotFired _ hpr
    · exact hs.disjointCF tid hmem
  · intro e he
    exact hs.liveScheduled e ((mem_removeReq hs.keysNodup).mp he).1
  · intro e he
    obtain ⟨hmem, hne⟩ := (mem_removeReq hs.keysNodup).mp he
    intro hc
    rcases List.mem_cons.mp hc with heq | hold
    · exact hne (congrArg Prod.fst (hs.taskInjOn e hmem (t, pr) hpr heq))
    · exact hs.liveNotCanceled e hmem hold
  · intro e he
    exact hs.liveNotFired e ((mem_removeReq hs.keysNodup).mp he).1
  · intro tr htr hc hf
    have hc' : tr.1 ∉ s.canceled := fun hx => hc (List.mem_cons_of_mem _ hx)
    have hlive := hs.pendingLive tr htr hc' hf
    refine (mem_removeReq hs.keysNodup).mpr ⟨hlive, ?_⟩
    intro hkey
    have : PendingRequest.mk tr.2.2 tr.1 = pr := by
      refine findReq_unique hs.keysNodup h ?_
      rw [← hkey]
      exact hlive
    exact hc (by simp [List.mem_cons, ← congrArg PendingRequest.task this])

theorem Inv.tpaStep {s : TpaState} (hs : Inv s) (conn : List String)
    (sender : String) (args : List String) :
    Inv (handleTpa conn sender args s).state := by
  match args with
  | [] => exact hs
  | a :: b :: rest => exact hs
  | [arg] =>
    cases hg : getPlayer conn arg with
    | none => simpa [handleTpa, hg] using hs
    | some target =>
      by_cases ht : target = sender
      · simpa [handleTpa, hg, ht] using hs
      · cases hfind : findReq s.requests target with
        | some pr =>
          by_cases hr : pr.requester = sender <;>
            simpa [handleTpa, hg, ht, hfind, hr] using hs
        | none =>
          have hkey : target ∉ reqKeys s.requests := findReq_eq_none_iff.mp hfind
          simp only [handleTpa, hg, hfind, if_neg ht]
          refine ⟨?_, ?_, ?_, ?_, ?_, ?_, ?_, ?_, ?_, ?_, ?_, ?_, ?_, ?_⟩
          · simp only [reqKeys, List.map_append, List.map_cons, List.map_nil]
            rw [List.nodup_append]
            refine ⟨hs.keysNodup, List.nodup_singleton _, ?_⟩
            intro x hx hx'
            simp only [List.mem_singleton] at hx'
            subst hx'
            exact hkey hx
          · intro e he
            rcases List.mem_append.mp he with hold | hnew
            · exact hs.noSelf e hold
            · simp only [List.mem_singleton] at hnew
              subst hnew
              exact fun hx => ht hx.symm
          · intro e he
            rcases List.mem_append.mp he with hold | hnew
            · exact Nat.lt_succ_of_lt (hs.tasksLt e hold)
            · simp only [List.mem_singleton] at hnew
              subst hnew
              exact Nat.lt_succ_self _
          · intro tr htr
            rcases List.mem_append.mp htr with hold | hnew
            · exact Nat.lt_succ_of_lt (hs.timersLt tr hold)
            · simp only [List.mem_singleton] at hnew
              subst hnew
              exact Nat.lt_succ_self _
          · simp only [List.map_append, List.map_cons, List.map_nil]
            rw [List.nodup_append]
            refine ⟨hs.timersNodup, List.nodup_singleton _, ?_⟩
            intro x hx hx'
            simp only [List.mem_singleton] at hx'
            subst hx'
            obtain ⟨tr, htr, htr1⟩ := List.mem_map.mp hx
            exact absurd (htr1 ▸ hs.timersLt tr htr) (Nat.lt_irrefl _)
          · intro tid htid
            exact Nat.lt_succ_of_lt (hs.canceledLt tid htid)
          · intro tid htid
            exact Nat.lt_succ_of_lt (hs.firedLt tid htid)
          · exact hs.canceledNodup
          · exact hs.firedNodup
          · exact hs.disjointCF
          · intro e he
            rcases List.mem_append.mp he with hold | hnew
            · exact List.mem_append_left _ (hs.liveScheduled e hold)
            · simp only [List.mem_singleton] at hnew
              subst hnew
              simp
          · intro e he
            rcases List.mem_append.mp he with hold | hnew
            · exact hs.liveNotCanceled e hold
            · simp only [List.mem_singleton] at hnew
              subst hnew
              intro hc
              exact absurd (hs.canceledLt _ hc) (Nat.lt_irrefl _)
          · intro e he
            rcases List.mem_append.mp he with hold | hnew
            · exact hs.liveNotFired e hold
            · simp only [List.mem_singleton] at hnew
              subst hnew
              intro hc
              exact absurd (hs.firedLt _ hc) (Nat.lt_irrefl _)
          · intro tr htr hc hf
            rcases List.mem_append.mp htr with hold | hnew
            · exact List.mem_append_left _ (hs.pendingLive tr hold hc hf)
            · simp only [List.mem_singleton] at hnew
              subst hnew
              simp

theorem Inv.tpacceptStep {s : TpaState} (hs : Inv s) (sender : String) :
    Inv (handleTpaccept sender s).state := by
  cases hfind : findReq s.requests sender with
  | none => simpa [handleTpaccept, hfind] using hs
  | some pr =>
    simpa [handleTpaccept, hfind] using hs.popCancel hfind

theorem Inv.tpdenyStep {s : TpaState} (hs : Inv s) (sender : String) :
    Inv (handleTpdeny sender s).state := by
  cases hfind : findReq s.requests sender with
  | none => simpa [handleTpdeny, hfind] using hs
  | some pr =>
    simpa [handleTpdeny, hfind] using hs.popCancel hfind

theorem Inv.quitOutboundStep (conn : List String) (p : String)
    (ts : List String) : ∀ {s : TpaState}, Inv s →
    Inv (quitOutbound conn p ts s).1 := by
  induction ts with
  | nil => intro s hs; exact hs
  | cons t ts ih =>
    intro s hs
    cases hf : findReq s.requests t with
    | none => simpa [quitOutbound, hf] using ih hs
    | some pr =>
      cases hgp : getPlayer conn t with
      | none => simpa [quitOutbound, hf, hgp] using ih (hs.popCancel hf)
      | some pl => simpa [quitOutbound, hf, hgp] using ih (hs.popCancel hf)

theorem Inv.quitStep {s : TpaState} (hs : Inv s) (conn : List String)
    (p : String) : Inv (onPlayerQuit conn p s).1 := by
  cases hf : findReq s.requests p with
  | none => simpa [onPlayerQuit, hf] using Inv.quitOutboundStep conn p _ hs
  | some pr =>
    simpa [onPlayerQuit, hf] using Inv.quitOutboundStep conn p _ (hs.popCancel hf)

theorem Inv.fireStep {s : TpaState} (hs : Inv s) {tid : Nat}
    {target sender : String} (hmem : (tid, target, sender) ∈ s.timers)
    (hnc : tid ∉ s.canceled) (hnf : tid ∉ s.fired) :
    Inv (fireTimer tid target sender s).1 := by
  have hlive : (target, PendingRequest.mk sender tid) ∈ s.requests :=
    hs.pendingLive (tid, target, sender) hmem hnc hnf
  have hfind : findReq s.requests target = some (PendingRequest.mk sender tid) :=
    mem_findReq hs.keysNodup hlive
  simp only [fireTimer, expire, hfind]
  refine ⟨?_, ?_, ?_, ?_, ?_, ?_, ?_, ?_, ?_, ?_, ?_, ?_, ?_, ?_⟩
  · exact reqKeys_removeReq hs.keysNodup
  · intro e he
    exact hs.noSelf e ((mem_removeReq hs.keysNodup).mp he).1
  · intro e he
    exact hs.tasksLt e ((mem_removeReq hs.keysNodup).mp he).1
  · exact hs.timersLt
  · exact hs.timersNodup
  · exact hs.canceledLt
  · intro t ht
    rcases List.mem_cons.mp ht with rfl | hold
    · exact hs.timersLt _ hmem
    · exact hs.firedLt t hold
  · exact hs.canceledNodup
  · exact List.nodup_cons.mpr ⟨hnf, hs.firedNodup⟩
  · intro t ht
    intro hft
    rcases List.mem_cons.mp hft with rfl | hold
    · exact hnc ht
    · exact hs.disjointCF t ht hold
  · intro e he
    exact hs.liveScheduled e ((mem_removeReq hs.keysNodup).mp he).1
  · intro e he
    exact hs.liveNotCanceled e ((mem_removeReq hs.keysNodup).mp he).1
  · intro e he
    obtain ⟨hold, hne⟩ := (mem_removeReq hs.keysNodup).mp he
    intro hf
    rcases List.mem_cons.mp hf with heq | hf'
    · exact hne
        (congrArg Prod.fst
          (hs.taskInjOn e hold (target, PendingRequest.mk sender tid) hlive heq))
    · exact hs.liveNotFired e hold hf'
  · intro tr htr hc hf
    have hf' : tr.1 ∉ s.fired := fun hx => hf (List.mem_cons_of_mem _ hx)
    have hne : tr.1 ≠ tid := fun hx => hf (hx ▸ List.mem_cons_self _ _)
    have hl := hs.pendingLive tr htr hc hf'
    refine (mem_removeReq hs.keysNodup).mpr ⟨hl, ?_⟩
    intro hkey
    have heq : PendingRequest.mk tr.2.2 tr.1 = PendingRequest.mk sender tid :=
      findReq_unique hs.keysNodup hfind (hkey ▸ hl)
    exact hne (congrArg PendingRequest.task heq)

theorem Inv.disableStep {s : TpaState} (hs : Inv s) : Inv (onDisable s).1 := by
  refine ⟨?_, ?_, ?_, ?_, ?_, ?_, ?_, ?_, ?_, ?_, ?_, ?_, ?_, ?_⟩ <;>
    simp only [onDisable]
  · simp [reqKeys]
  · simp
  · simp
  · exact hs.timersLt
  · exact hs.timersNodup
  · intro tid htid
    rcases List.mem_append.mp htid with hnew | hold
    · obtain ⟨e, he, hee⟩ := List.mem_map.mp hnew
      exact hee ▸ hs.tasksLt e he
    · exact hs.canceledLt tid hold
  · exact hs.firedLt
  · rw [List.nodup_append]
    refine ⟨hs.tasksNodup, hs.canceledNodup, ?_⟩
    intro x hx hx'
    obtain ⟨e, he, hee⟩ := List.mem_map.mp hx
    exact hs.liveNotCanceled e he (hee ▸ hx')
  · exact hs.firedNodup
  · intro tid htid
    rcases List.mem_append.mp htid with hnew | hold
    · obtain ⟨e, he, hee⟩ := List.mem_map.mp hnew
      exact hee ▸ hs.liveNotFired e he
    · exact hs.disjointCF tid hold
  · simp
  · simp
  · simp
  · intro tr htr hc hf
    exfalso
    have hc1 : tr.1 ∉ s.canceled := fun hx => hc (List.mem_append_right _ hx)
    have hlive := hs.pendingLive tr htr hc1 hf
    exact hc (List.mem_append_left _
      (List.mem_map.mpr ⟨_, hlive, rfl⟩))

theorem Inv.step {s s' : TpaState} (hs : Inv s) (h : Step s s') : Inv s' := by
  cases h with
  | tpa conn sender args s => exact hs.tpaStep conn sender args
  | tpaccept sender s => exact hs.tpacceptStep sender
  | tpdeny sender s => exact hs.tpdenyStep sender
  | quit conn p s => exact hs.quitStep conn p
  | fire tid target sender s hmem hnc hnf => exact hs.fireStep hmem hnc hnf
  | disable s => exact hs.disableStep

theorem inv_initState : Inv initState := by
  refine ⟨?_, ?_, ?_, ?_, ?_, ?_, ?_, ?_, ?_, ?_, ?_, ?_, ?_, ?_⟩ <;>
    simp [initState, reqKeys]

theorem reachable_inv {s : TpaState} (h : Reachable s) : Inv s := by
  induction h with
  | refl => exact inv_initState
  | tail _ hstep ih => exact ih.step hstep


/-- C6: in every state reachable from the empty registry through any sequence
of the five operations, every entry stores a requester different from its
target key: no self-request is ever stored. -/
theorem reachable_no_self (s : TpaState) (h : Reachable s) :
    ∀ e ∈ s.requests, e.2.requester ≠ e.1 :=
  (reachable_inv h).noSelf

/-- C6 witness: in the concrete reachable state holding `A`'s request to `B`,
the stored requester `A` differs from the key `B`. -/
theorem reachable_no_self_witness : (("A" : String) = "B") = False := by
  have hr : Reachable sentState :=
    Relation.ReflTransGen.single (Step.tpa ["A", "B"] "A" ["B"] initState)
  exact eq_false
    (reachable_no_self sentState hr ("B", PendingRequest.mk "A" 0) (by decide))

/-- C5: in every reachable state the cancel log has no duplicate (no handle
is ever canceled twice), no canceled handle has also fired, every live
entry's handle is neither canceled nor fired yet, and every handle ever
scheduled is canceled, fired, or still backs its live entry — so a handle is
consumed exactly once, by whichever of accept, deny, expiry firing, or
disconnect cleanup removes its entry first, and none is left pending after
its entry is removed. -/
theorem timer_canceled_once (s : TpaState) (h : Reachable s) :
    s.canceled.Nodup ∧ s.fired.Nodup ∧
    (∀ tid ∈ s.canceled, tid ∉ s.fired) ∧
    (∀ e ∈ s.requests, e.2.task ∉ s.canceled ∧ e.2.task ∉ s.fired) ∧
    (∀ tr ∈ s.timers, tr.1 ∈ s.canceled ∨ tr.1 ∈ s.fired ∨
      (tr.2.1, PendingRequest.mk tr.2.2 tr.1) ∈ s.requests) := by
  have hi := reachable_inv h
  refine ⟨hi.canceledNodup, hi.firedNodup, hi.disjointCF,
    fun e he => ⟨hi.liveNotCanceled e he, hi.liveNotFired e he⟩, ?_⟩
  intro tr htr
  by_cases hc : tr.1 ∈ s.canceled
  · exact Or.inl hc
  · by_cases hf : tr.1 ∈ s.fired
    · exact Or.inr (Or.inl hf)
    · exact Or.inr (Or.inr (hi.pendingLive tr htr hc hf))

/-- C5 witness: after `/tpa B` by `A` and then `B` accepting, the cancel log
is exactly `[0]` and has no duplicate. -/
theorem timer_canceled_once_witness :
    (handleTpaccept "B" sentState).state.canceled.Nodup := by
  have hr : Reachable (handleTpaccept "B" sentState).state :=
    Relation.ReflTransGen.tail
      (Relation.ReflTransGen.single (Step.tpa ["A", "B"] "A" ["B"] initState))
      (Step.tpaccept "B" sentState)
  exact (timer_canceled_once _ hr).1


/-- Closed form of the second `on_player_quit` loop when every target in
`ts` has an entry and keys are unique: it filters out the entries keyed in
`ts`, cancels their timers in iteration order, and messages each target that
resolves to a connected player. -/
theorem quitOutbound_eq (conn : List String) (p : String) :
    ∀ (ts : List String) (s : TpaState),
    (reqKeys s.requests).Nodup → ts.Nodup →
    (∀ t ∈ ts, (findReq s.requests t).isSome) →
    quitOutbound conn p ts s =
      ({ s with
          requests := s.requests.filter (fun e => !(ts.contains e.1))
          canceled :=
            (ts.filterMap
              (fun t => (findReq s.requests t).map (fun pr => pr.task))).reverse
              ++ s.canceled },
       ts.filterMap (fun t =>
         (getPlayer conn t).map
           (fun pl => (pl, p ++ " left the game. Teleport request cancelled.")))) := by
  intro ts
  induction ts with
  | nil =>
    intro s hk _ _
    simp only [quitOutbound, List.filterMap_nil, List.reverse_nil,
      List.nil_append]
    rw [List.filter_eq_self.mpr (by intro a _; simp)]
  | cons t ts ih =>
    intro s hk hnd hsome
    have hts : t ∉ ts := (List.nodup_cons.mp hnd).1
    have hnd' : ts.Nodup := (List.nodup_cons.mp hnd).2
    obtain ⟨pr, hpr⟩ := Option.isSome_iff_exists.mp (hsome t (List.mem_cons_self t ts))
    have hk' : (reqKeys (removeReq s.requests t)).Nodup := reqKeys_removeReq hk
    have hfind' : ∀ t' ∈ ts, findReq (removeReq s.requests t) t' = findReq s.requests t' := by
      intro t' ht'
      exact findReq_removeReq_ne (fun h => hts (h ▸ ht'))
    have hsome' : ∀ t' ∈ ts, (findReq (removeReq s.requests t) t').isSome := by
      intro t' ht'
      rw [hfind' t' ht']
      exact hsome t' (List.mem_cons_of_mem _ ht')
    have hih := ih ({ s with
        requests := removeReq s.requests t
        canceled := pr.task :: s.canceled }) hk' hnd' hsome'
    simp only [quitOutbound, hpr]
    rw [hih]
    have hreq :
        (removeReq s.requests t).filter (fun e => !(ts.contains e.1)) =
          s.requests.filter (fun e => !((t :: ts).contains e.1)) := by
      rw [removeReq_eq_filter hk, List.filter_filter]
      refine List.filter_congr ?_
      intro e _
      simp only [List.contains_cons, Bool.not_or]
      rw [Bool.and_comm]
    have hcanc :
        (ts.filterMap (fun t' =>
            (findReq (removeReq s.requests t) t').map (fun pr => pr.task))) =
          (ts.filterMap (fun t' =>
            (findReq s.requests t').map (fun pr => pr.task))) := by
      refine List.filterMap_congr ?_
      intro t' ht'
      rw [hfind' t' ht']
    have hmsg :
        ((t :: ts).filterMap (fun t' =>
            (getPlayer conn t').map
              (fun pl => (pl, p ++ " left the game. Teleport request cancelled.")))) =
          match getPlayer conn t with
          | some pl =>
            (pl, p ++ " left the game. Teleport request cancelled.") ::
              ts.filterMap (fun t' =>
                (getPlayer conn t').map
                  (fun pl => (pl, p ++ " left the game. Teleport request cancelled.")))
          | none =>
            ts.filterMap (fun t' =>
              (getPlayer conn t').map
                (fun pl => (pl, p ++ " left the game. Teleport request cancelled."))) := by
      cases hgp : getPlayer conn t <;> simp [List.filterMap_cons, hgp]
    cases hgp : getPlayer conn t with
    | some pl =>
      simp only [hgp] at hmsg ⊢
      rw [hmsg]
      refine Prod.ext ?_ rfl
      simp only [hreq, hcanc]
      simp [List.filterMap_cons, hpr, List.append_assoc]
    | none =>
      simp only [hgp] at hmsg ⊢
      rw [hmsg]
      refine Prod.ext ?_ rfl
      simp only [hreq, hcanc]
      simp [List.filterMap_cons, hpr, List.append_assoc]


theorem getPlayer_eq_some {conn : List String} {t pl : String} :
    getPlayer conn t = some pl ↔ t ∈ conn ∧ pl = t := by
  unfold getPlayer
  split <;> simp_all [eq_comm]

/-- Membership in the `to_cancel` key list computed by `on_player_quit`. -/
theorem mem_targets_iff {l : List (String × PendingRequest)}
    (hk : (reqKeys l).Nodup) (p : String) {e : String × PendingRequest}
    (he : e ∈ l) :
    e.1 ∈ (l.filter (fun x => x.2.requester == p)).map (fun x => x.1) ↔
      e.2.requester = p := by
  have hk' : (l.map (fun x => x.1)).Nodup := hk
  constructor
  · intro h
    obtain ⟨e', he', hkey⟩ := List.mem_map.mp h
    have he'l := (List.mem_filter.mp he').1
    have heq : e' = e := List.inj_on_of_nodup_map hk' he'l he hkey
    have := (List.mem_filter.mp he').2
    rw [heq] at this
    exact beq_iff_eq.mp this
  · intro h
    exact List.mem_map.mpr ⟨e, List.mem_filter.mpr ⟨he, by simp [h]⟩, rfl⟩

theorem targets_nodup {l : List (String × PendingRequest)}
    (hk : (reqKeys l).Nodup) (p : String) :
    ((l.filter (fun x => x.2.requester == p)).map (fun x => x.1)).Nodup :=
  ((List.filter_sublist l).map _).nodup hk

theorem targets_findReq_isSome {l : List (String × PendingRequest)}
    (hk : (reqKeys l).Nodup) (p : String) :
    ∀ t ∈ (l.filter (fun x => x.2.requester == p)).map (fun x => x.1),
      (findReq l t).isSome := by
  intro t ht
  obtain ⟨e, he, hkey⟩ := List.mem_map.mp ht
  have : findReq l e.1 = some e.2 :=
    mem_findReq hk (List.mem_filter.mp he).1
  rw [← hkey, this]
  rfl

/-- The timer ids the `on_player_quit` second pass cancels are exactly the
tasks of entries whose requester is the departing player. -/
theorem mem_cancelTasks_iff {l : List (String × PendingRequest)}
    (hk : (reqKeys l).Nodup) (p : String) (tid : Nat) :
    tid ∈ ((l.filter (fun x => x.2.requester == p)).map (fun x => x.1)).filterMap
        (fun t => (findReq l t).map (fun pr => pr.task)) ↔
      ∃ e ∈ l, e.2.requester = p ∧ e.2.task = tid := by
  rw [List.mem_filterMap]
  constructor
  · rintro ⟨t, ht, hmap⟩
    rw [Option.map_eq_some'] at hmap
    obtain ⟨pr, hfind, htask⟩ := hmap
    have hmem := findReq_mem hfind
    exact ⟨(t, pr), hmem, (mem_targets_iff hk p hmem).mp ht, htask⟩
  · rintro ⟨e, he, hreq, htask⟩
    refine ⟨e.1, (mem_targets_iff hk p he).mpr hreq, ?_⟩
    have : findReq l e.1 = some e.2 := mem_findReq hk he
    rw [this]
    simp [htask]

theorem cancelTasks_nodup {l : List (String × PendingRequest)}
    (hk : (reqKeys l).Nodup)
    (hinj : ∀ e1 ∈ l, ∀ e2 ∈ l, e1.2.task = e2.2.task → e1 = e2) (p : String) :
    (((l.filter (fun x => x.2.requester == p)).map (fun x => x.1)).filterMap
        (fun t => (findReq l t).map (fun pr => pr.task))).Nodup := by
  refine List.Nodup.filterMap ?_ (targets_nodup hk p)
  intro a a' b hb hb'
  rw [Option.mem_def, Option.map_eq_some'] at hb hb'
  obtain ⟨pr, hf, ht⟩ := hb
  obtain ⟨pr', hf', ht'⟩ := hb'
  have h1 := findReq_mem hf
  have h2 := findReq_mem hf'
  have := hinj (a, pr) h1 (a', pr') h2 (by rw [ht, ht'])
  exact congrArg Prod.fst this


theorem contains_eq_true_iff {l : List String} {a : String} :
    l.contains a = true ↔ a ∈ l :=
  List.elem_iff

/-- C3: `on_player_quit(p)` removes exactly the entries keyed by `p` or
requested by `p` (so afterwards `p` is neither a key nor a stored requester),
leaves the timer bookkeeping otherwise untouched, cancels the timer of each
removed entry exactly once and no other timer, notifies the requester of the
pass-1 entry, notifies the target of each pass-2 entry iff that target is
still connected, and sends nothing else. -/
theorem onPlayerQuit_cleanup (conn : List String) (p : String) (s : TpaState)
    (hk : (reqKeys s.requests).Nodup)
    (hinj : ∀ e1 ∈ s.requests, ∀ e2 ∈ s.requests,
      e1.2.task = e2.2.task → e1 = e2) :
    (∀ e, e ∈ (onPlayerQuit conn p s).1.requests ↔
      e ∈ s.requests ∧ e.1 ≠ p ∧ e.2.requester ≠ p) ∧
    (onPlayerQuit conn p s).1.nextTimer = s.nextTimer ∧
    (onPlayerQuit conn p s).1.timers = s.timers ∧
    (onPlayerQuit conn p s).1.fired = s.fired ∧
    (∃ newly, (onPlayerQuit conn p s).1.canceled = newly ++ s.canceled ∧
      newly.Nodup ∧
      (∀ tid, tid ∈ newly ↔
        ∃ e ∈ s.requests, (e.1 = p ∨ e.2.requester = p) ∧ e.2.task = tid)) ∧
    (∀ pr, findReq s.requests p = some pr →
      (pr.requester, p ++ " left the game. Teleport request cancelled.") ∈
        (onPlayerQuit conn p s).2) ∧
    (∀ e ∈ s.requests, e.1 ≠ p → e.2.requester = p → e.1 ∈ conn →
      (e.1, p ++ " left the game. Teleport request cancelled.") ∈
        (onPlayerQuit conn p s).2) ∧
    (∀ m ∈ (onPlayerQuit conn p s).2,
      m.2 = p ++ " left the game. Teleport request cancelled." ∧
      (m.1 ∈ conn ∨
        ∃ pr, findReq s.requests p = some pr ∧ m.1 = pr.requester)) := by
  cases hf : findReq s.requests p with
  | none =>
    have hpkey : p ∉ reqKeys s.requests := findReq_eq_none_iff.mp hf
    have hq := quitOutbound_eq conn p
      ((s.requests.filter (fun x => x.2.requester == p)).map (fun x => x.1)) s
      hk (targets_nodup hk p) (targets_findReq_isSome hk p)
    simp only [onPlayerQuit, hf, hq, List.nil_append]
    refine ⟨?_, ?_, ?_, ?_, ?_, ?_, ?_, ?_⟩
    case refine_2 => trivial
    case refine_3 => trivial
    case refine_4 => trivial
    · intro e
      rw [List.mem_filter]
      constructor
      · rintro ⟨hmem, hb⟩
        rw [Bool.not_eq_true'] at hb
        refine ⟨hmem, fun hp => hpkey (hp ▸ List.mem_map.mpr ⟨e, hmem, rfl⟩),
          fun hreq => ?_⟩
        have hct := contains_eq_true_iff.mpr ((mem_targets_iff hk p hmem).mpr hreq)
        rw [hb] at hct
        exact Bool.false_ne_true hct
      · rintro ⟨hmem, _, hreq⟩
        refine ⟨hmem, ?_⟩
        rw [Bool.not_eq_true', Bool.eq_false_iff]
        intro hct
        exact hreq ((mem_targets_iff hk p hmem).mp (contains_eq_true_iff.mp hct))
    · refine ⟨_, rfl, ?_, ?_⟩
      · rw [List.nodup_reverse]
        exact cancelTasks_nodup hk hinj p
      · intro tid
        rw [List.mem_reverse, mem_cancelTasks_iff hk p tid]
        constructor
        · rintro ⟨e, he, hreq, ht⟩
          exact ⟨e, he, Or.inr hreq, ht⟩
        · rintro ⟨e, he, hdisj, ht⟩
          rcases hdisj with hkey | hreq
          · exact absurd (hkey ▸ List.mem_map.mpr ⟨e, he, rfl⟩) hpkey
          · exact ⟨e, he, hreq, ht⟩
    · intro pr hpr
      exact Option.noConfusion hpr
    · intro e hmem _ hreq hconn
      refine List.mem_filterMap.mpr
        ⟨e.1, (mem_targets_iff hk p hmem).mpr hreq, ?_⟩
      rw [getPlayer_eq_some.mpr ⟨hconn, rfl⟩]
      rfl
    · intro m hm
      obtain ⟨t, _, hsome⟩ := List.mem_filterMap.mp hm
      rw [Option.map_eq_some'] at hsome
      obtain ⟨pl, hgp, hme⟩ := hsome
      obtain ⟨hconn, rfl⟩ := getPlayer_eq_some.mp hgp
      subst hme
      exact ⟨rfl, Or.inl hconn⟩
  | some pr =>
    have hprmem : (p, pr) ∈ s.requests := findReq_mem hf
    have hk1 : (reqKeys (removeReq s.requests p)).Nodup := reqKeys_removeReq hk
    have hinj1 : ∀ e1 ∈ removeReq s.requests p, ∀ e2 ∈ removeReq s.requests p,
        e1.2.task = e2.2.task → e1 = e2 := by
      intro e1 h1 e2 h2 h
      exact hinj e1 ((mem_removeReq hk).mp h1).1 e2 ((mem_removeReq hk).mp h2).1 h
    have hq := quitOutbound_eq conn p
      (((removeReq s.requests p).filter (fun x => x.2.requester == p)).map
        (fun x => x.1))
      ({ s with
          requests := removeReq s.requests p
          canceled := pr.task :: s.canceled })
      hk1 (targets_nodup hk1 p) (targets_findReq_isSome hk1 p)
    simp only [onPlayerQuit, hf, hq, List.singleton_append]
    refine ⟨?_, ?_, ?_, ?_, ?_, ?_, ?_, ?_⟩
    case refine_2 => trivial
    case refine_3 => trivial
    case refine_4 => trivial
    · intro e
      rw [List.mem_filter]
      constructor
      · rintro ⟨hmem1, hb⟩
        rw [Bool.not_eq_true'] at hb
        obtain ⟨hmem, hne⟩ := (mem_removeReq hk).mp hmem1
        refine ⟨hmem, hne, fun hreq => ?_⟩
        have hct := contains_eq_true_iff.mpr
          ((mem_targets_iff hk1 p hmem1).mpr hreq)
        rw [hb] at hct
        exact Bool.false_ne_true hct
      · rintro ⟨hmem, hkey, hreq⟩
        refine ⟨(mem_removeReq hk).mpr ⟨hmem, hkey⟩, ?_⟩
        rw [Bool.not_eq_true', Bool.eq_false_iff]
        intro hct
        exact hreq ((mem_targets_iff hk1 p ((mem_removeReq hk).mpr ⟨hmem, hkey⟩)).mp
          (contains_eq_true_iff.mp hct))
    · refine ⟨(((removeReq s.requests p).filter
          (fun x => x.2.requester == p)).map (fun x => x.1) |>.filterMap
            (fun t => (findReq (removeReq s.requests p) t).map
              (fun pr => pr.task))).reverse ++ [pr.task], ?_, ?_, ?_⟩
      · rw [List.append_assoc]
        rfl
      · rw [List.nodup_append]
        refine ⟨List.nodup_reverse.mpr (cancelTasks_nodup hk1 hinj1 p),
          List.nodup_singleton _, ?_⟩
        intro tid htid htid'
        rw [List.mem_singleton] at htid'
        subst htid'
        rw [List.mem_reverse, mem_cancelTasks_iff hk1 p] at htid
        obtain ⟨e, he, _, ht⟩ := htid
        have := hinj e ((mem_removeReq hk).mp he).1 (p, pr) hprmem ht
        exact ((mem_removeReq hk).mp he).2 (congrArg Prod.fst this)
      · intro tid
        rw [List.mem_append, List.mem_reverse, mem_cancelTasks_iff hk1 p,
          List.mem_singleton]
        constructor
        · rintro (⟨e, he, hreq, ht⟩ | rfl)
          · exact ⟨e, ((mem_removeReq hk).mp he).1, Or.inr hreq, ht⟩
          · exact ⟨(p, pr), hprmem, Or.inl rfl, rfl⟩
        · rintro ⟨e, he, hdisj, ht⟩
          by_cases hkey : e.1 = p
          · right
            have hk' : (s.requests.map (fun x => x.1)).Nodup := hk
            have : e = (p, pr) := List.inj_on_of_nodup_map hk' he hprmem hkey
            rw [this] at ht
            exact ht.symm
          · rcases hdisj with hkey' | hreq
            · exact absurd hkey' hkey
            · exact Or.inl ⟨e, (mem_removeReq hk).mpr ⟨he, hkey⟩, hreq, ht⟩
    · intro pr' hpr'
      have heq : pr = pr' := Option.some.inj hpr'
      subst heq
      exact List.mem_cons_self _ _
    · intro e hmem hkey hreq hconn
      refine List.mem_cons_of_mem _ ?_
      refine List.mem_filterMap.mpr
        ⟨e.1, (mem_targets_iff hk1 p ((mem_removeReq hk).mpr ⟨hmem, hkey⟩)).mpr hreq, ?_⟩
      rw [getPlayer_eq_some.mpr ⟨hconn, rfl⟩]
      rfl
    · intro m hm
      rcases List.mem_cons.mp hm with rfl | hm'
      · exact ⟨rfl, Or.inr ⟨pr, rfl, rfl⟩⟩
      · obtain ⟨t, _, hsome⟩ := List.mem_filterMap.mp hm'
        rw [Option.map_eq_some'] at hsome
        obtain ⟨pl, hgp, hme⟩ := hsome
        obtain ⟨hconn, rfl⟩ := getPlayer_eq_some.mp hgp
        subst hme
        exact ⟨rfl, Or.inl hconn⟩


/-- A registry with `A` targeted by nobody, requesting to `B` and `C`, and an
unrelated request from `E` to `D`. -/
def quitDemo : TpaState :=
  ⟨[("B", ⟨"A", 0⟩), ("C", ⟨"A", 1⟩), ("D", ⟨"E", 2⟩)], 3,
    [(0, "B", "A"), (1, "C", "A"), (2, "D", "E")], [], []⟩

/-- C3 witness: after `A` disconnects, the entry not involving `A`
survives the two cleanup passes. -/
theorem onPlayerQuit_cleanup_witness :
    ("D", PendingRequest.mk "E" 2) ∈
      (onPlayerQuit ["B", "C", "D", "E"] "A" quitDemo).1.requests :=
  ((onPlayerQuit_cleanup ["B", "C", "D", "E"] "A" quitDemo (by decide)
      (by decide)).1 ("D", PendingRequest.mk "E" 2)).mpr
    ⟨by decide, by decide, by decide⟩

end Tpa
